import Mathlib

/-!
# Verification of the knowledge-base pipeline of `coin_auto_trade`

Shallow embedding of the feature-extraction / knowledge-base update pipeline
(`src/knowledge_base/data_processor.py`, `src/knowledge_base/kb_manager.py`)
and proofs of the spec claims about it.

Conventions of the embedding:
* pandas/numpy float64 cells are modelled by `PVal`: an exact rational, a signed
  infinity, or NaN, with the IEEE-754 propagation rules the code relies on
  (NaN propagates through arithmetic; comparisons with NaN are `False`;
  division of a non-zero finite by zero gives a signed infinity, `0/0` gives NaN).
* a DataFrame column of length `n` is a function `ℕ → PVal` (only indices `< n`
  are relevant), a DataFrame is a record of such columns plus its index.
* the SQLAlchemy session used by the model-refresh engine is modelled by an
  atomic registry update (`commit` applies the whole block, `rollback`/failure
  leaves the registry unchanged), which is exactly the transactional contract
  the code obtains from `session.commit()` / `session.rollback()`.
* fallible code paths (a Python `raise` escaping a function) are modelled with
  `Except String` / an explicit error component.
-/

set_option maxRecDepth 20000

namespace CoinKB

/-- A pandas/numpy float64 cell: NaN, ±∞, or a finite value (floats modelled as
exact rationals). `inf true` is `+∞`, `inf false` is `-∞`. -/
inductive PVal where
  | nan : PVal
  | inf : Bool → PVal
  | fin : ℚ → PVal
deriving DecidableEq

/-- IEEE addition: NaN propagates, `∞ + (-∞) = NaN`. -/
def PVal.add : PVal → PVal → PVal
  | nan, _ => nan
  | _, nan => nan
  | inf a, inf b => if a = b then inf a else nan
  | inf a, fin _ => inf a
  | fin _, inf b => inf b
  | fin x, fin y => fin (x + y)

/-- IEEE negation. -/
def PVal.neg : PVal → PVal
  | nan => nan
  | inf a => inf (!a)
  | fin x => fin (-x)

/-- IEEE subtraction. -/
def PVal.sub (a b : PVal) : PVal := a.add b.neg

/-- IEEE multiplication: NaN propagates, `∞ * 0 = NaN`, signs combine. -/
def PVal.mul : PVal → PVal → PVal
  | nan, _ => nan
  | _, nan => nan
  | inf a, inf b => inf (a = b)
  | inf a, fin y => if y = 0 then nan else inf (a = decide (0 < y))
  | fin x, inf b => if x = 0 then nan else inf (b = decide (0 < x))
  | fin x, fin y => fin (x * y)

/-- IEEE division: NaN propagates, `finite/∞ = 0`, `∞/∞ = NaN`,
`x/0 = ±∞` for `x ≠ 0` and `0/0 = NaN`. -/
def PVal.div : PVal → PVal → PVal
  | nan, _ => nan
  | _, nan => nan
  | inf _, inf _ => nan
  | inf a, fin y => if y = 0 then inf a else inf (a = decide (0 < y))
  | fin _, inf _ => fin 0
  | fin x, fin y =>
      if y = 0 then (if x = 0 then nan else inf (decide (0 < x))) else fin (x / y)

instance : Add PVal := ⟨PVal.add⟩

instance : Neg PVal := ⟨PVal.neg⟩

instance : Sub PVal := ⟨PVal.sub⟩

instance : Mul PVal := ⟨PVal.mul⟩

instance : Div PVal := ⟨PVal.div⟩

/-- Is this cell NaN (pandas `isna` on a float column)? -/
def PVal.isNan : PVal → Bool
  | nan => true
  | _ => false

/-- `v > 0` as evaluated by pandas (`False` for NaN). -/
def PVal.gtZ : PVal → Bool
  | nan => false
  | inf b => b
  | fin q => decide (0 < q)

/-- `v < 0` as evaluated by pandas (`False` for NaN). -/
def PVal.ltZ : PVal → Bool
  | nan => false
  | inf b => !b
  | fin q => decide (q < 0)

/-- `a > b` as evaluated by pandas (`False` whenever NaN is involved). -/
def PVal.gtB : PVal → PVal → Bool
  | nan, _ => false
  | _, nan => false
  | inf a, inf b => a && !b
  | inf a, fin _ => a
  | fin _, inf b => !b
  | fin x, fin y => decide (y < x)

/-- A cell is finite. -/
def PVal.isFin (v : PVal) : Prop := ∃ q, v = fin q

/-! ## Model registry and the Model Refresh Engine
(`kb_manager.py`, `_update_price_prediction_model` lines 259-341,
`_update_direction_prediction_model` lines 343-425,
`update_prediction_models` lines 231-257, `update_knowledge_base` lines 54-97.)

The SQLAlchemy session block of both `_update_*_prediction_model` functions is

```python
session = self.db_manager.get_session()
try:
    existing_models = session.query(PredictionModel).filter_by(
        name=..., active=True).all()
    for existing in existing_models:
        existing.active = False
    model_metadata = PredictionModel(name=..., ..., active=True)
    session.add(model_metadata)
    session.commit()
except Exception:
    session.rollback()
    raise
finally:
    session.close()
```

so a single transaction deactivates every active row of that name and inserts
the new active row; on failure the rollback leaves the registry untouched.
`activateModel` models the committed/rolled-back transaction. -/

/-- One `PredictionModel` registry row (metadata only). -/
structure ModelRow where
  name : String
  model_type : String
  target : String
  active : Bool
deriving DecidableEq

/-- The `existing.active = False` pass of the session block, applied to one row:
rows returned by `filter_by(name=nm, active=True)` are deactivated, all other
rows are untouched. -/
def deactRow (nm : String) (r : ModelRow) : ModelRow :=
  if r.name = nm && r.active then { r with active := false } else r

/-- The transactional body of the session block: if the commit succeeds, every
active row with the new row's name is deactivated and the new row is inserted
with `active := true`, as one atomic step; if the commit fails, the rollback
leaves the registry unchanged. -/
def activateModel (reg : List ModelRow) (row : ModelRow) (commitOk : Bool) :
    List ModelRow :=
  if commitOk then
    reg.map (deactRow row.name) ++ [{ row with active := true }]
  else reg

/-- Number of active registry rows carrying a given model name
(the registry query `filter_by(name=name, active=True)`). -/
def activeCount (reg : List ModelRow) (name : String) : ℕ :=
  (reg.filter (fun r => r.name = name && r.active)).length

/-- One call into a model-refresh function, as observed by the registry:
either the call never reaches the session block (insufficient features at
lines 282/367, or the training/evaluation code raises before the session is
opened), or it reaches the session block and runs the transaction with a
given commit outcome. -/
inductive RefreshCall where
  | noop : RefreshCall
  | swap (row : ModelRow) (commitOk : Bool) : RefreshCall
deriving DecidableEq

/-- Effect of one refresh call on the registry. -/
def applyCall (reg : List ModelRow) : RefreshCall → List ModelRow
  | .noop => reg
  | .swap row ok => activateModel reg row ok

/-- Registry contents after a sequence of refresh calls, starting from the
empty registry. -/
def runCalls (calls : List RefreshCall) : List ModelRow :=
  calls.foldl applyCall []

/-! ## The per-symbol batch loop (`update_knowledge_base`, lines 54-97)

```python
try:
    for symbol in symbols:
        ... per-symbol work, may raise ...
except Exception as e:
    logger.error(...)
    raise
```

The `try`/`except` wraps the whole `for` loop, and the handler re-raises, so an
exception while processing one symbol leaves the loop. The per-symbol body
(fetch, feature extraction, knowledge extraction, model update) is abstracted
as a parameter `procSym` returning `Except`; the function returns the list of
symbols whose processing was started, together with the escaped exception, if
any. -/

/-- `update_knowledge_base`: iterate the batch; an exception escapes the loop
(it is logged and re-raised by the single surrounding handler). Returns
(symbols attempted, propagated exception). -/
def update_knowledge_base (procSym : String → Except String Unit) :
    List String → List String × Option String
  | [] => ([], none)
  | s :: rest =>
      match procSym s with
      | .ok _ =>
          let r := update_knowledge_base procSym rest
          (s :: r.1, r.2)
      | .error e => ([s], some e)

/-! ## `update_prediction_models` (lines 231-257) and the two sub-model
updates (lines 259-341 and 343-425).

The per-sub-model functions `_update_price_prediction_model` and
`_update_direction_prediction_model` have the shape

```python
try:
    ... build target, select features ...
    if len(available_features) < 3: return   # early no-op
    ... train, evaluate, pickle the model ...
    session = ...                            # transactional registry swap
except Exception as e:
    logger.error(...)
    raise                                    # the exception propagates
```

and `update_prediction_models` is

```python
try:
    if len(features) < 30: return
    self._update_price_prediction_model(symbol, features)
    self._update_direction_prediction_model(symbol, features)
except Exception as e:
    logger.error(...)
    raise
```

The sklearn training step is not part of this repository; its outcome for one
sub-model is abstracted as a `SubOutcome` parameter, while the control flow
(early returns, commit/rollback, re-raising handlers) is the code's. -/

/-- Outcome of the training/evaluation phase of one sub-model update:
too few available feature columns (early return at lines 282-284 / 367-369),
an exception raised during training/evaluation (re-raised at lines 339-341 /
423-425), or a trained model row reaching the session block whose commit
either succeeds or fails. -/
inductive SubOutcome where
  | insufficientFeatures : SubOutcome
  | trainError (e : String) : SubOutcome
  | trained (row : ModelRow) (commitOk : Bool) : SubOutcome
deriving DecidableEq

/-- One `_update_*_prediction_model` call: registry effect and propagated
exception. An exception (from training or from a failed commit, which the
handler re-raises after the rollback) propagates to the caller. -/
def updateSubModel (reg : List ModelRow) : SubOutcome → List ModelRow × Option String
  | .insufficientFeatures => (reg, none)
  | .trainError e => (reg, some e)
  | .trained row ok =>
      (activateModel reg row ok, if ok then none else some "CommitError")

/-- `update_prediction_models`: below 30 rows the call is a no-op; otherwise
the price (regression) sub-model update runs first and, only if it did not
raise, the direction (classification) sub-model update runs; any exception
propagates (the handler at lines 255-257 logs and re-raises). -/
def update_prediction_models (reg : List ModelRow) (nRows : ℕ)
    (priceOut dirOut : SubOutcome) : List ModelRow × Option String :=
  if nRows < 30 then (reg, none)
  else
    match updateSubModel reg priceOut with
    | (reg₁, some e) => (reg₁, some e)
    | (reg₁, none) => updateSubModel reg₁ dirOut

/-- A registry row as built at lines 319-327 (regression model metadata). -/
def sampleRegRow : ModelRow :=
  ⟨"BTCUSDT_price_prediction", "RandomForestRegressor", "price_24h", false⟩

/-- A registry row as built at lines 403-411 (classification model metadata). -/
def sampleDirRow : ModelRow :=
  ⟨"BTCUSDT_direction_prediction", "RandomForestClassifier", "price_direction_24h", false⟩

/-- The per-symbol processing function used as a concrete counterexample input:
processing symbol `AAA` raises, every other symbol succeeds. -/
def failOnAAA : String → Except String Unit :=
  fun s => if s = "AAA" then .error "boom" else .ok ()

/-! ## News sentiment features (`data_processor.py`,
`extract_news_sentiment_features`, lines 157-206)

The input frame (built by `process_news_data`) has one row per news item with
columns `id`, `sentiment`, `importance`, indexed by `published_at`. A row is a
`NewsItem`; a missing `importance` cell is `none` (a NaN in the float column).
The function assigns two new columns **to the caller's frame** (lines 181 and
184: `news_df['sentiment_score'] = ...`, `news_df['weighted_sentiment'] = ...`
without a prior `.copy()`), then aggregates per 1-hour resample bucket and
fills NaN aggregates with 0. Timestamps are minutes; a 1-hour bucket is
`ts / 60`. The embedding returns the post-call state of the caller's frame
together with the feature table. -/

/-- One row of the news input frame. `sentiment_score` and
`weighted_sentiment` are `none` until `extract_news_sentiment_features`
assigns those columns in place. -/
structure NewsItem where
  id : ℕ
  ts : ℕ
  sentiment : String
  importance : Option ℚ
  sentiment_score : Option PVal := none
  weighted_sentiment : Option PVal := none
deriving DecidableEq

/-- The sentiment-label mapping of lines 174-178; `Series.map` leaves NaN for
labels outside the dict. -/
def sentimentMap (s : String) : PVal :=
  if s = "positive" then .fin 1
  else if s = "neutral" then .fin 0
  else if s = "negative" then .fin (-1)
  else .nan

/-- The `importance` cell of a row, as a float (NaN when missing). -/
def importanceVal : Option ℚ → PVal
  | some q => .fin q
  | none => .nan

/-- The two in-place column assignments of lines 181 and 184, applied to one
row: `sentiment_score = sentiment.map(...)` and
`weighted_sentiment = sentiment_score * importance`. -/
def addSentimentCols (it : NewsItem) : NewsItem :=
  { it with
    sentiment_score := some (sentimentMap it.sentiment),
    weighted_sentiment :=
      some (sentimentMap it.sentiment * importanceVal it.importance) }

/-- Sum of a float column (NaN-propagating). -/
def sumPVals (l : List PVal) : PVal := l.foldr (· + ·) (.fin 0)

/-- pandas `Series.mean()`: NaN entries are skipped; the mean of the remaining
entries, NaN when none remain. -/
def meanSkipna (l : List PVal) : PVal :=
  let present := l.filter (fun v => !v.isNan)
  if present.length = 0 then .nan
  else sumPVals present / .fin (present.length : ℚ)

/-- `(x > 0).mean()` over a bucket: the comparison maps NaN to `False`, the
mean of the booleans is a fraction over *all* entries; NaN on an empty
bucket. -/
def ratioGtZ (l : List PVal) : PVal :=
  if l.length = 0 then .nan
  else .fin (((l.filter PVal.gtZ).length : ℚ) / (l.length : ℚ))

/-- `(x < 0).mean()` over a bucket, as `ratioGtZ`. -/
def ratioLtZ (l : List PVal) : PVal :=
  if l.length = 0 then .nan
  else .fin (((l.filter PVal.ltZ).length : ℚ) / (l.length : ℚ))

/-- The `fillna(0)` pass of line 200, applied to one aggregate cell. -/
def fillna0 (v : PVal) : PVal := if v.isNan then .fin 0 else v

/-- 1-hour resample bucket of a minute timestamp. -/
def bucketOf (t : ℕ) : ℕ := t / 60

/-- The resample bucket axis: every 1-hour bucket from the first row's bucket
to the last row's bucket inclusive (pandas `resample` emits empty intermediate
buckets). -/
def bucketRange (df : List NewsItem) : List ℕ :=
  match df.map (fun it => bucketOf it.ts) with
  | [] => []
  | b :: bs =>
      let lo := bs.foldl min b
      let hi := bs.foldl max b
      (List.range (hi + 1 - lo)).map (fun k => lo + k)

/-- The rows of one resample bucket. -/
def itemsInBucket (df : List NewsItem) (b : ℕ) : List NewsItem :=
  df.filter (fun it => bucketOf it.ts = b)

/-- One output row of the news feature table: the six aggregate columns of
lines 190-197; source column names `news_count`, `avg_sentiment`,
`weighted_sentiment`, `positive_ratio`, `negative_ratio`, `importance_avg`
(the ratio fields are abbreviated here). -/
structure NewsFeatRow where
  ts : ℕ
  news_count : PVal
  avg_sentiment : PVal
  weighted_sentiment : PVal
  posRatio : PVal
  negRatio : PVal
  importance_avg : PVal
deriving DecidableEq

/-- The column names of the news feature table, as the downstream knowledge
extractor sees them. -/
def newsFeatureColumnNames : List String :=
  ["news_count", "avg_sentiment", "weighted_sentiment",
   "positive_ratio", "negative_ratio", "importance_avg"]

/-- One aggregated bucket row (lines 190-197 plus the `fillna(0)` of line
200). `news_count` is `resampled['id'].count()`: the number of non-null ids,
i.e. the number of rows in the bucket. -/
def mkNewsRow (df : List NewsItem) (b : ℕ) : NewsFeatRow :=
  let items := itemsInBucket df b
  let scores := items.map (fun it => it.sentiment_score.getD .nan)
  let weighted := items.map (fun it => it.weighted_sentiment.getD .nan)
  let imps := items.map (fun it => importanceVal it.importance)
  { ts := b * 60
    news_count := fillna0 (.fin (items.length : ℚ))
    avg_sentiment := fillna0 (meanSkipna scores)
    weighted_sentiment := fillna0 (meanSkipna weighted)
    posRatio := fillna0 (ratioGtZ scores)
    negRatio := fillna0 (ratioLtZ scores)
    importance_avg := fillna0 (meanSkipna imps) }

/-- `extract_news_sentiment_features` (lines 157-206): on an empty frame,
return an empty table with the caller's frame untouched (lines 170-171);
otherwise assign the two derived columns into the caller's frame (lines
181-184), resample hourly and aggregate (lines 187-200). Returns (the
caller's frame after the call, the feature table). -/
def extract_news_sentiment_features (df : List NewsItem) :
    List NewsItem × List NewsFeatRow :=
  if df.isEmpty then (df, [])
  else
    let mutated := df.map addSentimentCols
    (mutated, (bucketRange mutated).map (mkNewsRow mutated))

/-! ## Knowledge extractors (`kb_manager.py`, `extract_price_knowledge`
lines 99-172, `extract_news_knowledge` lines 174-229)

Both read only the last row (`iloc[-1]`) of a feature table and build
`KnowledgeItem` dicts for `save_knowledge_item`. A returned `.ok items` means
the function persisted exactly `items`; `.error` models a Python exception
escaping the function (each handler logs and re-raises). -/

/-- A knowledge item dict as passed to `save_knowledge_item`. -/
structure KnowledgeItem where
  symbol : String
  timestamp : ℕ
  data_type : String
  feature_name : String
  feature_value : Option PVal := none
  feature_text : Option String := none
  metadata : List (String × PVal) := []
deriving DecidableEq

/-- A row of a generic feature table: the row's index timestamp and its cell
values, positionally aligned with the table's column-name list. -/
structure FeatRow where
  ts : ℕ
  vals : List PVal
deriving DecidableEq

/-- `latest_data.get(c, 0)`: the cell of column `c` in a row, `0` when the
column does not exist. -/
def getCol (names : List String) (r : FeatRow) (c : String) : PVal :=
  match names.indexOf? c with
  | some i => (r.vals.get? i).getD .nan
  | none => .fin 0

/-- `extract_price_knowledge` (lines 99-172). Line 111 reads
`price_features.iloc[-1]`, which on an empty frame raises `IndexError`; the
handler at lines 170-172 logs and re-raises. On a nonempty frame it builds
the price-change, volume-change, technical-indicator and MA-cross items of
lines 114-164 and persists them. -/
def extract_price_knowledge (symbol : String) (names : List String)
    (rows : List FeatRow) : Except String (List KnowledgeItem) :=
  if rows.isEmpty then .error "IndexError"
  else
    let latest := rows.getLastD ⟨0, []⟩
    let v := getCol names latest
    let baseItems : List KnowledgeItem :=
      [{ symbol := symbol, timestamp := latest.ts, data_type := "price",
         feature_name := "price_change_24h",
         feature_value := some (v "price_change_24h"),
         metadata := [("price", v "price"), ("volume", v "volume")] },
       { symbol := symbol, timestamp := latest.ts, data_type := "price",
         feature_name := "volume_change_24h",
         feature_value := some (v "volume_change_24h"),
         metadata := [("volume", v "volume")] }]
    let techItems : List KnowledgeItem :=
      (["rsi_14", "macd", "macd_hist"].filter (fun c => c ∈ names)).map
        (fun c =>
          { symbol := symbol, timestamp := latest.ts, data_type := "technical",
            feature_name := c, feature_value := some (v c), metadata := [] })
    let maItems : List KnowledgeItem :=
      if "ma_20" ∈ names ∧ "ma_50" ∈ names then
        [{ symbol := symbol, timestamp := latest.ts, data_type := "technical",
           feature_name := "ma_cross",
           feature_text :=
             some (if PVal.gtB (v "ma_20") (v "ma_50") then "bullish"
                   else "bearish"),
           metadata := [("ma_20", v "ma_20"), ("ma_50", v "ma_50")] }]
      else []
    .ok (baseItems ++ techItems ++ maItems)

/-- `extract_news_knowledge` (lines 174-229). An empty feature table returns
quietly (lines 186-188). Otherwise items are built only under the checks
`"sentiment_score" in latest_data` (line 195) and
`"importance_score" in latest_data` (line 210), i.e. only when those columns
exist in the news feature table; the cell reads inside the dead branches use
the `.get(c, 0)` default. -/
def extract_news_knowledge (symbol : String) (news_features : List NewsFeatRow) :
    Except String (List KnowledgeItem) :=
  if news_features.isEmpty then .ok []
  else
    let latest := news_features.getLastD ⟨0, .nan, .nan, .nan, .nan, .nan, .nan⟩
    let sentItems : List KnowledgeItem :=
      if "sentiment_score" ∈ newsFeatureColumnNames then
        [{ symbol := symbol, timestamp := latest.ts, data_type := "news",
           feature_name := "sentiment_score", feature_value := some (.fin 0),
           metadata := [("news_count", latest.news_count)] }]
      else []
    let impItems : List KnowledgeItem :=
      if "importance_score" ∈ newsFeatureColumnNames then
        [{ symbol := symbol, timestamp := latest.ts, data_type := "news",
           feature_name := "importance_score", feature_value := some (.fin 0),
           metadata := [("news_count", latest.news_count)] }]
      else []
    .ok (sentItems ++ impItems)

/-- A concrete one-item news frame used as counterexample input. -/
def mutationProbeItem : NewsItem :=
  { id := 1, ts := 30, sentiment := "positive", importance := some (1/2) }

/-- A news item carrying an `importance` value. -/
def impPresentItem : NewsItem :=
  { id := 1, ts := 10, sentiment := "positive", importance := some 1 }

/-- A news item whose `importance` cell is missing (NaN). -/
def impMissingItem : NewsItem :=
  { id := 2, ts := 20, sentiment := "positive", importance := none }

/-- Replacing a missing `importance` by `0`, as the claim says the code
treats it. -/
def impOr0 (it : NewsItem) : NewsItem :=
  { it with importance := some (it.importance.getD 0) }

/-- An arbitrary rewrite of the `importance` column, applied to one row. -/
def setImportance (f : Option ℚ → Option ℚ) (it : NewsItem) : NewsItem :=
  { it with importance := f it.importance }

/-- The importance-independent part of a news feature row: its bucket
timestamp, `news_count`, `avg_sentiment`, `positive_ratio` and
`negative_ratio`. -/
def newsRowSummary (r : NewsFeatRow) : ℕ × PVal × PVal × PVal × PVal :=
  (r.ts, r.news_count, r.avg_sentiment, r.posRatio, r.negRatio)

/-! ## `normalize_features` (`data_processor.py`, lines 245-287)

Works on a copy of the frame (line 262) and rescales each numeric column
(`select_dtypes(include=['float64','int64'])`, line 265) over the whole
provided window; non-numeric columns pass through and are not modelled. A
numeric frame is a list of named rational columns. -/

/-- A numeric feature frame: the float64/int64 columns that
`select_dtypes` retains, cells modelled as exact rationals. -/
abbrev NFrame := List (String × List ℚ)

/-- `Series.min()` over a column (pandas gives NaN on an empty column, which
makes the `max > min` guard false; `0` here does the same). -/
def colMin : List ℚ → ℚ
  | [] => 0
  | h :: t => t.foldl min h

/-- `Series.max()` over a column, as `colMin`. -/
def colMax : List ℚ → ℚ
  | [] => 0
  | h :: t => t.foldl max h

/-- Sum of a column. -/
def colSum (l : List ℚ) : ℚ := l.foldr (· + ·) 0

/-- `Series.mean()` of a fully-present column. -/
def colMean (l : List ℚ) : ℚ := colSum l / (l.length : ℚ)

/-- pandas `Series.std()` (sample, ddof=1), modelled by the sample
*variance*: the true std is its square root, irrational in general, while
`√` is strictly monotone on `[0,∞)` and zero exactly at `0`, so the
`std > 0` guard of line 280 and the unchanged-column case are exact under
this model; no claim depends on the magnitude of a z-scored value. Columns
of length ≤ 1 have NaN std in pandas (guard false), modelled as `0`. -/
def colVar (l : List ℚ) : ℚ :=
  if l.length ≤ 1 then 0
  else colSum (l.map (fun x => (x - colMean l) * (x - colMean l)))
        / ((l.length : ℚ) - 1)

/-- The per-column body of the normalization loops (lines 269-273 minmax,
277-281 zscore): rescale only when the guard holds, otherwise leave the
column unchanged; unknown methods leave every column unchanged. -/
def normColumn (method : String) (l : List ℚ) : List ℚ :=
  if method = "minmax" then
    if colMax l > colMin l then
      l.map (fun x => (x - colMin l) / (colMax l - colMin l))
    else l
  else if method = "zscore" then
    if colVar l > 0 then
      l.map (fun x => (x - colMean l) / colVar l)
    else l
  else l

/-- `normalize_features` (lines 245-287): per-column rescaling on a copy of
the frame; the empty frame maps to the empty frame (line 258). -/
def normalize_features (df : NFrame) (method : String) : NFrame :=
  df.map (fun p => (p.1, normColumn method p.2))

/-- All cells of a column are equal (a constant column). -/
def allEqList (l : List ℚ) : Prop := ∀ a ∈ l, ∀ b ∈ l, a = b

/-! ## Price features (`data_processor.py`, `process_price_data` lines 29-60
and `extract_price_features` lines 95-155)

`process_price_data` turns the raw observation dicts into a frame sorted by
timestamp (`sort_values('timestamp')`, line 51 — duplicates are *not*
removed) and indexed by it. `extract_price_features` works on a copy, adds
the derived columns, and drops every row containing a NaN (line 149).
Columns are functions from the row position; timestamps are minutes. The
sort is modelled by a stable insertion sort (pandas `sort_values` promises
some order consistent with the key; stability is one admissible choice and
nothing below depends on the order within equal keys). -/

/-- One raw price observation (the fields used by the pipeline). -/
structure PriceObs where
  ts : ℕ
  price : ℚ
  volume : ℚ
deriving DecidableEq

/-- The sort key order of `sort_values('timestamp')`. -/
def obsLe (a b : PriceObs) : Prop := a.ts ≤ b.ts

instance : DecidableRel obsLe := fun a b => Nat.decLe a.ts b.ts

instance : IsTotal PriceObs obsLe := ⟨fun a b => Nat.le_total a.ts b.ts⟩

instance : IsTrans PriceObs obsLe := ⟨fun _ _ _ hab hbc => Nat.le_trans hab hbc⟩

/-- A price frame: position-indexed timestamp, price and volume columns of
length `n`. -/
structure PriceDF where
  n : ℕ
  ts : ℕ → ℕ
  price : ℕ → PVal
  volume : ℕ → PVal

/-- The frame over an already-sorted row list. -/
def frameOfSorted (s : List PriceObs) : PriceDF :=
  { n := s.length
    ts := fun i => ((s.get? i).map PriceObs.ts).getD 0
    price := fun i =>
      match s.get? i with
      | some o => .fin o.price
      | none => .nan
    volume := fun i =>
      match s.get? i with
      | some o => .fin o.volume
      | none => .nan }

/-- `process_price_data` (lines 29-60): sort the rows by timestamp and index
by it; duplicate timestamps are kept. -/
def process_price_data (l : List PriceObs) : PriceDF :=
  frameOfSorted (l.insertionSort obsLe)

/-- `Series.diff()`: NaN at the first position. -/
def colDiff (f : ℕ → PVal) : ℕ → PVal := fun i =>
  if i = 0 then .nan else f i - f (i - 1)

/-- `Series.pct_change(periods=p)`: NaN for the first `p` positions, else
`(x_i - x_{i-p}) / x_{i-p}`. -/
def pctChange (p : ℕ) (f : ℕ → PVal) : ℕ → PVal := fun i =>
  if i < p then .nan else (f i - f (i - p)) / f (i - p)

/-- Sum of the trailing window of width `w` ending at position `i` (used
with `w ≤ i + 1`). -/
def windowSum (w : ℕ) (f : ℕ → PVal) (i : ℕ) : PVal :=
  ((List.range w).map (fun j => f (i + 1 - w + j))).foldr (· + ·) (.fin 0)

/-- `rolling(w).mean()`: NaN until the window is full (default
`min_periods = w`; a NaN inside a full window also propagates, through the
sum). -/
def rollMean (w : ℕ) (f : ℕ → PVal) : ℕ → PVal := fun i =>
  if i + 1 < w then .nan else windowSum w f i / .fin (w : ℚ)

/-- IEEE square root on the NaN/∞ structure. The finite value is modelled by
the radicand itself: the true root is irrational in general, and `√` is
strictly monotone on `[0,∞)`, NaN-free there, and zero exactly at 0, so
NaN-structure, signs and comparisons are preserved; no claim depends on the
magnitude of a rolling-std cell. -/
def pvalSqrt : PVal → PVal
  | .nan => .nan
  | .inf b => if b then .inf true else .nan
  | .fin q => if q < 0 then .nan else .fin q

/-- `rolling(w).std()` (sample, ddof=1): NaN until the window is full, else
the square root of the sample variance of the window. -/
def rollStd (w : ℕ) (f : ℕ → PVal) : ℕ → PVal := fun i =>
  if i + 1 < w then .nan
  else
    pvalSqrt (windowSum w
      (fun j => (f j - windowSum w f i / .fin (w : ℚ))
        * (f j - windowSum w f i / .fin (w : ℚ))) i
      / .fin ((w : ℚ) - 1))

/-- `ewm(span=s, adjust=False).mean()`: `y₀ = x₀`,
`yᵢ = (1-α)·yᵢ₋₁ + α·xᵢ` with `α = 2/(s+1)`. -/
def ewm (s : ℕ) (f : ℕ → PVal) : ℕ → PVal
  | 0 => f 0
  | i + 1 =>
      .fin (1 - 2 / ((s : ℚ) + 1)) * ewm s f i
        + .fin (2 / ((s : ℚ) + 1)) * f (i + 1)

/-- `gain = delta.where(delta > 0, 0)` (line 134): keep the diff where it is
positive, else 0; the NaN at position 0 compares `False` and becomes 0. -/
def gainCol (f : ℕ → PVal) : ℕ → PVal := fun i =>
  if (colDiff f i).gtZ then colDiff f i else .fin 0

/-- `loss = -delta.where(delta < 0, 0)` (line 135). -/
def lossCol (f : ℕ → PVal) : ℕ → PVal := fun i =>
  -(if (colDiff f i).ltZ then colDiff f i else .fin 0)

/-- The columns of the frame built by `extract_price_features` (the input's
own `price`, `volume` — `dropna` inspects them too — plus the derived
columns of lines 114-146, in assignment order). -/
def priceFeatureCols (df : PriceDF) : List (String × (ℕ → PVal)) :=
  [("price", df.price), ("volume", df.volume),
   ("price_change_1h", pctChange 60 df.price),
   ("price_change_24h", pctChange 1440 df.price),
   ("volume_change_1h", pctChange 60 df.volume),
   ("volume_change_24h", pctChange 1440 df.volume),
   ("ma_5", rollMean 5 df.price), ("ma_20", rollMean 20 df.price),
   ("ma_50", rollMean 50 df.price), ("ma_200", rollMean 200 df.price),
   ("ma_20_std", rollStd 20 df.price),
   ("upper_band", fun i => rollMean 20 df.price i + rollStd 20 df.price i * .fin 2),
   ("lower_band", fun i => rollMean 20 df.price i - rollStd 20 df.price i * .fin 2),
   ("rsi_14", fun i => .fin 100 - .fin 100 /
      (.fin 1 + rollMean 14 (gainCol df.price) i / rollMean 14 (lossCol df.price) i)),
   ("ema_12", ewm 12 df.price), ("ema_26", ewm 26 df.price),
   ("macd", fun i => ewm 12 df.price i - ewm 26 df.price i),
   ("macd_signal", ewm 9 (fun i => ewm 12 df.price i - ewm 26 df.price i)),
   ("macd_hist", fun i => ewm 12 df.price i - ewm 26 df.price i
      - ewm 9 (fun j => ewm 12 df.price j - ewm 26 df.price j) i)]

/-- The `dropna` row predicate of line 149: no cell of row `i` is NaN. -/
def rowOk (cols : List (String × (ℕ → PVal))) (i : ℕ) : Bool :=
  cols.all (fun c => !(c.2 i).isNan)

/-- `extract_price_features` (lines 95-155): on a copy of the frame, add the
derived columns, then `dropna` (line 149): keep exactly the rows with no NaN
cell; each surviving row carries its timestamp index and its cells in column
order. -/
def extract_price_features (df : PriceDF) : List FeatRow :=
  ((List.range df.n).filter (rowOk (priceFeatureCols df))).map
    (fun i => ⟨df.ts i, (priceFeatureCols df).map (fun c => c.2 i)⟩)

/-- The price pipeline on raw observations, as `update_knowledge_base` runs
it: `extract_price_features(process_price_data(rows))`. -/
def pricePipeline (l : List PriceObs) : List FeatRow :=
  extract_price_features (process_price_data l)

/-- Modelled from the claim's words, for the refinement comparison of C5:
within each run of equal timestamps of the (stably) sorted sequence, keep
only the last element — "the de-duplicated (keeping the last occurrence per
timestamp), time-sorted version". -/
def keepLastRun : List PriceObs → List PriceObs
  | [] => []
  | [a] => [a]
  | a :: b :: rest =>
      if a.ts = b.ts then keepLastRun (b :: rest)
      else a :: keepLastRun (b :: rest)

/-- The de-duplicated, time-sorted version of a raw sequence (C5's reference
point, from the claim's words; the source never de-duplicates). -/
def dedupSortSpec (l : List PriceObs) : List PriceObs :=
  keepLastRun (l.insertionSort obsLe)

/-! ## `create_lagged_features` (`data_processor.py`, lines 289-325) -/

/-- A generic numeric frame for `create_lagged_features`: an index and named
float columns of length `n`. -/
structure Frame where
  n : ℕ
  ts : ℕ → ℕ
  cols : List (String × (ℕ → PVal))

/-- `Series.shift(lag)`: NaN for the first `lag` positions. -/
def shiftCol (lag : ℕ) (f : ℕ → PVal) : ℕ → PVal := fun i =>
  if i < lag then .nan else f (i - lag)

/-- `create_lagged_features` (lines 289-325): empty frame → empty result
(lines 303-304); work on a copy; for each requested column (default: every
numeric column, line 311) and each lag, append the shifted copy
`{col}_lag_{lag}` (line 316); `df[col]` on a name not in the frame raises
`KeyError`; finally drop the rows with any NaN (line 319). -/
def create_lagged_features (df : Frame) (lags : List ℕ)
    (columns : Option (List String)) : Except String (List FeatRow) :=
  if df.n = 0 then .ok []
  else
    let chosen : List String := match columns with
      | none => df.cols.map (fun c => c.1)
      | some cs => cs
    if chosen.all (fun c => (df.cols.map (fun p => p.1)).contains c) then
      let lagged : List (String × (ℕ → PVal)) := chosen.flatMap (fun c =>
        lags.map (fun lag =>
          (c ++ "_lag_" ++ toString lag,
           shiftCol lag (((df.cols.find? (fun p => p.1 = c)).map
             (fun p => p.2)).getD (fun _ => .nan)))))
      .ok (((List.range df.n).filter (rowOk (df.cols ++ lagged))).map
        (fun i => ⟨df.ts i, (df.cols ++ lagged).map (fun c => c.2 i)⟩))
    else .error "KeyError"

/-- A finite cell with a nonnegative value. -/
def isFinNonneg (v : PVal) : Prop := ∃ q, v = .fin q ∧ 0 ≤ q

/-- A finite cell with a positive value. -/
def isFinPos (v : PVal) : Prop := ∃ q, v = .fin q ∧ 0 < q

/-- The price series of the C5 counterexample: one observation per minute,
strictly increasing except a single crash at minute 1435 (so the RSI window
at row 1440 contains a loss). -/
def cexPrice (i : ℕ) : ℚ := if i = 1435 then 1 else (i : ℚ) + 2

/-- 1441 raw observations whose last two share timestamp 1439: a sequence
with one duplicated timestamp, already in time order. -/
def cexObs : List PriceObs :=
  ((List.range 1439).map (fun i => ⟨i, cexPrice i, 1⟩)) ++
    [⟨1439, cexPrice 1439, 1⟩, ⟨1439, cexPrice 1440, 1⟩]

/-- Concrete observations for the C5 witness. -/
def cexW1 : PriceObs := ⟨1, 5, 6⟩

/-- Concrete observations for the C5 witness. -/
def cexW2 : PriceObs := ⟨2, 7, 8⟩

/-- A tiny concrete frame for the C8 witness: two rows, one constant
column. -/
def lagProbeFrame : Frame := ⟨2, fun i => i, [("x", fun _ => .fin 1)]⟩

theorem PVal.add_def (a b : PVal) : a + b = a.add b := rfl

theorem PVal.sub_def (a b : PVal) : a - b = a.sub b := rfl

theorem PVal.mul_def (a b : PVal) : a * b = a.mul b := rfl

theorem PVal.div_def (a b : PVal) : a / b = a.div b := rfl

theorem PVal.neg_def (a : PVal) : -a = a.neg := rfl

@[simp] theorem PVal.isNan_fin (q : ℚ) : (fin q).isNan = false := rfl

@[simp] theorem PVal.isNan_inf (b : Bool) : (inf b).isNan = false := rfl

@[simp] theorem PVal.isNan_nan : (nan : PVal).isNan = true := rfl

@[simp] theorem PVal.add_fin (x y : ℚ) : (fin x) + (fin y) = fin (x + y) := rfl

@[simp] theorem PVal.neg_fin (x : ℚ) : -(fin x) = fin (-x) := rfl

@[simp] theorem PVal.sub_fin (x y : ℚ) : (fin x) - (fin y) = fin (x - y) := by
  show PVal.fin (x + -y) = PVal.fin (x - y)
  rw [← sub_eq_add_neg]

@[simp] theorem PVal.mul_fin (x y : ℚ) : (fin x) * (fin y) = fin (x * y) := rfl
theorem PVal.div_fin_of_ne (x y : ℚ) (hy : y ≠ 0) : (fin x) / (fin y) = fin (x / y) := by
  show div _ _ = _
  simp [div, hy]

theorem PVal.isFin_fin (q : ℚ) : (fin q).isFin := ⟨q, rfl⟩

theorem PVal.isFin.add {a b : PVal} (ha : a.isFin) (hb : b.isFin) : (a + b).isFin := by
  obtain ⟨x, rfl⟩ := ha; obtain ⟨y, rfl⟩ := hb; exact ⟨x + y, rfl⟩

theorem PVal.isFin.sub {a b : PVal} (ha : a.isFin) (hb : b.isFin) : (a - b).isFin := by
  obtain ⟨x, rfl⟩ := ha; obtain ⟨y, rfl⟩ := hb; exact ⟨x - y, sub_fin x y⟩

theorem PVal.isFin.mul {a b : PVal} (ha : a.isFin) (hb : b.isFin) : (a * b).isFin := by
  obtain ⟨x, rfl⟩ := ha; obtain ⟨y, rfl⟩ := hb; exact ⟨x * y, rfl⟩

theorem PVal.isFin.neg {a : PVal} (ha : a.isFin) : (-a).isFin := by
  obtain ⟨x, rfl⟩ := ha; exact ⟨-x, rfl⟩

theorem PVal.isFin.div {a b : PVal} (ha : a.isFin) {y : ℚ} (hb : b = fin y) (hy : y ≠ 0) :
    (a / b).isFin := by
  obtain ⟨x, rfl⟩ := ha; subst hb; exact ⟨x / y, div_fin_of_ne x y hy⟩

theorem PVal.isFin.not_isNan {a : PVal} (ha : a.isFin) : a.isNan = false := by
  obtain ⟨x, rfl⟩ := ha; rfl

theorem activeCount_append (l₁ l₂ : List ModelRow) (name : String) :
    activeCount (l₁ ++ l₂) name = activeCount l₁ name + activeCount l₂ name := by
  simp [activeCount, List.filter_append]

theorem activeCount_cons (r : ModelRow) (t : List ModelRow) (name : String) :
    activeCount (r :: t) name =
      (if r.name = name && r.active then 1 else 0) + activeCount t name := by
  rw [activeCount, List.filter_cons]
  cases h : (decide (r.name = name) && r.active) with
  | true => simp [activeCount, h, Nat.add_comm]
  | false => simp [activeCount, h]

theorem deactRow_head_count (nm name : String) (r : ModelRow) :
    (if (deactRow nm r).name = name && (deactRow nm r).active then 1 else 0)
      = if nm = name then 0
        else (if r.name = name && r.active then 1 else 0) := by
  by_cases h3 : nm = name
  · subst h3
    rcases Bool.eq_false_or_eq_true r.active with hb | hb <;>
      by_cases h1 : r.name = nm <;>
        simp [deactRow, hb, h1]
  · rcases Bool.eq_false_or_eq_true r.active with hb | hb <;>
      by_cases h1 : r.name = nm <;>
        simp [deactRow, hb, h1, h3]

theorem activeCount_deactivated (reg : List ModelRow) (nm name : String) :
    activeCount (reg.map (deactRow nm)) name
      = if nm = name then 0 else activeCount reg name := by
  induction reg with
  | nil => simp [activeCount]
  | cons r t ih =>
      rw [List.map_cons, activeCount_cons, activeCount_cons, ih,
        deactRow_head_count]
      by_cases hnm : nm = name <;> simp [hnm]

theorem activeCount_activateModel (reg : List ModelRow) (row : ModelRow)
    (ok : Bool) (name : String) :
    activeCount (activateModel reg row ok) name =
      if ok then
        (if row.name = name then 1 else activeCount reg name)
      else activeCount reg name := by
  cases ok with
  | false => simp [activateModel]
  | true =>
      simp only [activateModel, if_true]
      rw [activeCount_append, activeCount_deactivated]
      by_cases h : row.name = name <;> simp [activeCount, List.filter_cons, h]

theorem activeCount_applyCall_le (reg : List ModelRow) (c : RefreshCall)
    (name : String) (h : activeCount reg name ≤ 1) :
    activeCount (applyCall reg c) name ≤ 1 := by
  cases c with
  | noop => exact h
  | swap row ok =>
      rw [applyCall, activeCount_activateModel]
      split
      · split
        · exact le_refl 1
        · exact h
      · exact h

theorem activeCount_applyCall_pos (reg : List ModelRow) (c : RefreshCall)
    (name : String) (h : 1 ≤ activeCount reg name) :
    1 ≤ activeCount (applyCall reg c) name := by
  cases c with
  | noop => exact h
  | swap row ok =>
      rw [applyCall, activeCount_activateModel]
      split
      · split
        · exact le_refl 1
        · exact h
      · exact h

theorem activeCount_foldl_le (calls : List RefreshCall) (reg : List ModelRow)
    (name : String) (h : activeCount reg name ≤ 1) :
    activeCount (calls.foldl applyCall reg) name ≤ 1 := by
  induction calls generalizing reg with
  | nil => exact h
  | cons c t ih => exact ih _ (activeCount_applyCall_le reg c name h)

theorem activeCount_foldl_pos (calls : List RefreshCall) (reg : List ModelRow)
    (name : String) (h : 1 ≤ activeCount reg name) :
    1 ≤ activeCount (calls.foldl applyCall reg) name := by
  induction calls generalizing reg with
  | nil => exact h
  | cons c t ih => exact ih _ (activeCount_applyCall_pos reg c name h)

/-- **C1**: for every sequence of calls to the model refresh engine for a given
model name, the registry holds at most one `PredictionModel` row with
`active = true` for that name after each call (never two), and once an active
model exists for a name, every later state again has exactly one active model
for that name — deactivation of prior rows and insertion of the new active row
are one transaction. -/
theorem c1_active_model_invariant :
    (∀ calls name, activeCount (runCalls calls) name ≤ 1) ∧
    (∀ calls more name, activeCount (runCalls calls) name = 1 →
      activeCount (runCalls (calls ++ more)) name = 1) := by
  constructor
  · intro calls name
    exact activeCount_foldl_le calls [] name (by simp [activeCount])
  · intro calls more name h
    rw [runCalls, List.foldl_append]
    have hle := activeCount_foldl_le more (calls.foldl applyCall []) name
      (by rw [← runCalls, h])
    have hpos := activeCount_foldl_pos more (calls.foldl applyCall []) name
      (by rw [← runCalls, h])
    omega

/-- Witness for C1 at a concrete call sequence: one successful swap followed by
a no-op and a rolled-back swap leaves exactly one active row for the name. -/
theorem c1_active_model_invariant_witness :
    activeCount (runCalls [RefreshCall.swap sampleRegRow true])
      "BTCUSDT_price_prediction" = 1 ∧
    activeCount (runCalls ([RefreshCall.swap sampleRegRow true] ++
      [RefreshCall.noop, RefreshCall.swap sampleRegRow false]))
      "BTCUSDT_price_prediction" = 1 :=
  ⟨by decide,
   c1_active_model_invariant.2 [RefreshCall.swap sampleRegRow true]
     [RefreshCall.noop, RefreshCall.swap sampleRegRow false]
     "BTCUSDT_price_prediction" (by decide)⟩

/-- **C2, counterexample**: the claim says a failure while processing one
symbol does not halt processing of the remaining symbols of the batch, i.e.
every symbol of the batch is processed. With a batch `["AAA", "BBB"]` whose
first symbol raises, the set of symbols actually processed is `["AAA"]` only:
the `try`/`except` around the whole loop re-raises and `BBB` is never
processed. -/
theorem c2_counterexample :
    ¬ (update_knowledge_base failOnAAA ["AAA", "BBB"]).1 = ["AAA", "BBB"] := by
  decide

/-- **C2 (amended)**: an exception while processing one symbol halts the
batch: all symbols before the failing one are processed, the failing symbol is
the last one attempted, no later symbol is processed, and the exception
propagates out of `update_knowledge_base` (the handler logs and re-raises). -/
theorem c2_failure_halts_batch (procSym : String → Except String Unit)
    (pre post : List String) (s e : String)
    (hpre : ∀ p ∈ pre, procSym p = .ok ())
    (hs : procSym s = .error e) :
    update_knowledge_base procSym (pre ++ s :: post) = (pre ++ [s], some e) := by
  induction pre with
  | nil => simp [update_knowledge_base, hs]
  | cons p t ih =>
      have hp : procSym p = .ok () := hpre p (by simp)
      simp [update_knowledge_base, hp,
        ih (fun q hq => hpre q (by simp [hq]))]

/-- Witness for the amended C2 at a concrete batch. -/
theorem c2_failure_halts_batch_witness :
    update_knowledge_base failOnAAA (["ZZZ"] ++ "AAA" :: ["BBB"])
      = (["ZZZ", "AAA"], some "boom") :=
  c2_failure_halts_batch failOnAAA ["ZZZ"] ["BBB"] "AAA" "boom"
    (by intro p hp; simp only [List.mem_singleton] at hp; subst hp; rfl) rfl

/-- **C3, counterexample**: the claim says an exception during the regression
sub-model update does not prevent the classification sub-model from being
trained and activated, and does not propagate. Starting from an empty
registry with 30 feature rows, a regression training error and a
classification outcome that would succeed: the classification model is *not*
activated (the registry stays empty) and the error *does* propagate. -/
theorem c3_counterexample :
    ¬ (activeCount
        (update_prediction_models [] 30 (.trainError "fit failed")
          (.trained sampleDirRow true)).1 "BTCUSDT_direction_prediction" = 1 ∧
       (update_prediction_models [] 30 (.trainError "fit failed")
          (.trained sampleDirRow true)).2 = none) := by
  decide

/-- **C3 (amended)**: an exception raised during training or evaluation of the
regression sub-model aborts the whole `update_prediction_models` call: the
classification sub-model is never trained, the registry is left untouched
(prior active-model state preserved), and the exception propagates to the
caller (the handlers re-raise). -/
theorem c3_regression_error_aborts (reg : List ModelRow) (nRows : ℕ) (e : String)
    (dirOut : SubOutcome) (h : 30 ≤ nRows) :
    update_prediction_models reg nRows (.trainError e) dirOut = (reg, some e) := by
  have hlt : ¬ nRows < 30 := not_lt.mpr h
  simp [update_prediction_models, hlt, updateSubModel]

/-- Witness for the amended C3 at a concrete state. -/
theorem c3_regression_error_aborts_witness :
    update_prediction_models [] 30 (.trainError "fit failed")
      (.trained sampleDirRow true) = ([], some "fit failed") :=
  c3_regression_error_aborts [] 30 "fit failed" (.trained sampleDirRow true)
    (by decide)

/-- **C6, counterexample**: the claim says `extract_news_sentiment_features`
leaves the caller's input frame unmodified. On a one-item frame the caller's
frame comes back with the `sentiment_score` and `weighted_sentiment` columns
assigned (lines 181 and 184 assign into `news_df` without copying), so it is
not equal to the input. -/
theorem c6_counterexample :
    ¬ (extract_news_sentiment_features [mutationProbeItem]).1
      = [mutationProbeItem] := by
  intro h
  rw [show (extract_news_sentiment_features [mutationProbeItem]).1
        = [addSentimentCols mutationProbeItem] from rfl] at h
  have h1 : addSentimentCols mutationProbeItem = mutationProbeItem :=
    (List.cons.injEq _ _ _ _ ▸ h).1
  have h2 := congrArg NewsItem.sentiment_score h1
  exact Option.noConfusion h2

/-- **C6 (amended)**: `extract_news_sentiment_features` does not leave the
caller's frame unmodified: the call returns with the caller's frame equal to
the input with exactly the two derived columns `sentiment_score` and
`weighted_sentiment` assigned, and every pre-existing column (`id`,
`published_at`, `sentiment`, `importance`) of every row unchanged. -/
theorem c6_mutation_characterized :
    (∀ df : List NewsItem,
      (extract_news_sentiment_features df).1 = df.map addSentimentCols) ∧
    (∀ it : NewsItem, (addSentimentCols it).id = it.id ∧
      (addSentimentCols it).ts = it.ts ∧
      (addSentimentCols it).sentiment = it.sentiment ∧
      (addSentimentCols it).importance = it.importance) := by
  constructor
  · intro df
    cases df with
    | nil => rfl
    | cons hd tl => rfl
  · intro it
    exact ⟨rfl, rfl, rfl, rfl⟩

/-- **C7, counterexample**: the claim says a missing `importance` is treated
as importance `0` in the bucket aggregates. On a bucket with one item of
importance `1/2` and one item with missing importance, the code's
`importance_avg` is `1/2` (NaN is skipped by `mean()`), while treating the
missing value as `0` would give `1/4`; the outputs differ. -/
theorem c7_counterexample :
    ¬ (extract_news_sentiment_features [impPresentItem, impMissingItem]).2
      = (extract_news_sentiment_features
          ([impPresentItem, impMissingItem].map impOr0)).2 := by
  intro h
  have h0 := congrArg
    (fun l => (l.headD ⟨0, .nan, .nan, .nan, .nan, .nan, .nan⟩).importance_avg) h
  rw [show (extract_news_sentiment_features [impPresentItem, impMissingItem]).2
        = [mkNewsRow ([impPresentItem, impMissingItem].map addSentimentCols) 0]
      from rfl,
    show (extract_news_sentiment_features
          ([impPresentItem, impMissingItem].map impOr0)).2
        = [mkNewsRow (([impPresentItem, impMissingItem].map impOr0).map
            addSentimentCols) 0] from rfl] at h0
  norm_num [mkNewsRow, itemsInBucket, bucketOf, meanSkipna, sumPVals, fillna0,
    importanceVal, addSentimentCols, impPresentItem, impMissingItem, impOr0,
    PVal.div_def, PVal.add_def, PVal.mul_def, PVal.div, PVal.add, PVal.mul,
    PVal.isNan] at h0

/-- **C7 (amended)**: a missing `importance` does not abort the batch: the
whole frame is still aggregated, and `news_count`, `avg_sentiment`,
`positive_ratio` and `negative_ratio` are computed from every item,
independently of the `importance` column entirely; the item is skipped (not
counted as 0) in the importance-based means `importance_avg` and
`weighted_sentiment`. -/
theorem c7_missing_importance_tolerated (df : List NewsItem)
    (f : Option ℚ → Option ℚ) :
    ((extract_news_sentiment_features (df.map (setImportance f))).2).map
        newsRowSummary
      = ((extract_news_sentiment_features df).2).map newsRowSummary := by
  cases df with
  | nil => rfl
  | cons hd tl =>
      show ((bucketRange (((hd :: tl).map (setImportance f)).map
              addSentimentCols)).map
            (mkNewsRow (((hd :: tl).map (setImportance f)).map
              addSentimentCols))).map newsRowSummary
          = ((bucketRange ((hd :: tl).map addSentimentCols)).map
              (mkNewsRow ((hd :: tl).map addSentimentCols))).map newsRowSummary
      rw [List.map_map (g := addSentimentCols) (f := setImportance f)]
      have hbr : bucketRange ((hd :: tl).map (addSentimentCols ∘ setImportance f))
          = bucketRange ((hd :: tl).map addSentimentCols) := by
        rw [bucketRange, bucketRange, List.map_map, List.map_map]
        rfl
      rw [hbr, List.map_map, List.map_map]
      have hrow : (newsRowSummary ∘ mkNewsRow
            ((hd :: tl).map (addSentimentCols ∘ setImportance f)))
          = (newsRowSummary ∘ mkNewsRow ((hd :: tl).map addSentimentCols)) := by
        funext b
        show newsRowSummary
            (mkNewsRow ((hd :: tl).map (addSentimentCols ∘ setImportance f)) b)
          = newsRowSummary (mkNewsRow ((hd :: tl).map addSentimentCols) b)
        rw [mkNewsRow, mkNewsRow, newsRowSummary, newsRowSummary,
          itemsInBucket, itemsInBucket, List.filter_map, List.filter_map,
          List.map_map, List.map_map, List.map_map, List.map_map,
          List.map_map, List.map_map]
        simp only [List.length_map]
        rfl
      rw [hrow]

/-- **C4**: the claim (and the spec) says `extract_price_knowledge` on an
empty feature table returns without error and persists nothing. The code
instead evaluates `price_features.iloc[-1]` (line 111), which raises
`IndexError` on an empty frame; the handler at lines 170-172 re-raises, so
the call errors and persists nothing — this theorem evaluates the embedded
code at the failing input. -/
theorem c4_empty_features_raises (symbol : String) (names : List String) :
    extract_price_knowledge symbol names [] = .error "IndexError" := rfl

theorem foldl_min_le_init (l : List ℚ) (a : ℚ) : l.foldl min a ≤ a := by
  induction l generalizing a with
  | nil => exact le_refl a
  | cons h t ih => exact le_trans (ih (min a h)) (min_le_left a h)

theorem foldl_min_le_mem (l : List ℚ) : ∀ (a x : ℚ), x ∈ l → l.foldl min a ≤ x := by
  induction l with
  | nil => intro a x hx; cases hx
  | cons h t ih =>
      intro a x hx
      rcases List.mem_cons.mp hx with rfl | hx
      · exact le_trans (foldl_min_le_init t (min a x)) (min_le_right a x)
      · exact ih (min a h) x hx

theorem init_le_foldl_max (l : List ℚ) (a : ℚ) : a ≤ l.foldl max a := by
  induction l generalizing a with
  | nil => exact le_refl a
  | cons h t ih => exact le_trans (le_max_left a h) (ih (max a h))

theorem mem_le_foldl_max (l : List ℚ) : ∀ (a x : ℚ), x ∈ l → x ≤ l.foldl max a := by
  induction l with
  | nil => intro a x hx; cases hx
  | cons h t ih =>
      intro a x hx
      rcases List.mem_cons.mp hx with rfl | hx
      · exact le_trans (le_max_right a x) (init_le_foldl_max t (max a x))
      · exact ih (max a h) x hx

theorem colMin_le_mem (l : List ℚ) (x : ℚ) (hx : x ∈ l) : colMin l ≤ x := by
  cases l with
  | nil => cases hx
  | cons h t =>
      rcases List.mem_cons.mp hx with rfl | hx
      · exact foldl_min_le_init t x
      · exact foldl_min_le_mem t h x hx

theorem mem_le_colMax (l : List ℚ) (x : ℚ) (hx : x ∈ l) : x ≤ colMax l := by
  cases l with
  | nil => cases hx
  | cons h t =>
      rcases List.mem_cons.mp hx with rfl | hx
      · exact init_le_foldl_max t x
      · exact mem_le_foldl_max t h x hx

theorem foldl_min_allEq (l : List ℚ) (a : ℚ) (h : ∀ x ∈ l, x = a) :
    l.foldl min a = a := by
  induction l with
  | nil => rfl
  | cons x t ih =>
      have hx : x = a := h x (by simp)
      rw [List.foldl_cons, hx, min_self]
      exact ih (fun y hy => h y (by simp [hy]))

theorem foldl_max_allEq (l : List ℚ) (a : ℚ) (h : ∀ x ∈ l, x = a) :
    l.foldl max a = a := by
  induction l with
  | nil => rfl
  | cons x t ih =>
      have hx : x = a := h x (by simp)
      rw [List.foldl_cons, hx, max_self]
      exact ih (fun y hy => h y (by simp [hy]))

/-- **C9**: after minmax normalization every numeric column that was not
constant has all its values in `[0,1]`; a constant column is returned
completely unchanged (the `max > min` guard of line 272 — no NaN/∞ is
introduced); and zscore is guarded the same way (line 280): when the
standard deviation is 0 the column is unchanged. The first conjunct ties the
per-column statement to `normalize_features`. -/
theorem c9_normalize_bounds (df : NFrame) (c : String) (src : List ℚ)
    (h : (c, src) ∈ df) :
    ((c, normColumn "minmax" src) ∈ normalize_features df "minmax" ∧
     (c, normColumn "zscore" src) ∈ normalize_features df "zscore") ∧
    (¬ allEqList src → ∀ v ∈ normColumn "minmax" src, 0 ≤ v ∧ v ≤ 1) ∧
    (allEqList src → normColumn "minmax" src = src) ∧
    (colVar src = 0 → normColumn "zscore" src = src) := by
  refine ⟨⟨List.mem_map_of_mem _ h, List.mem_map_of_mem _ h⟩, ?_, ?_, ?_⟩
  · intro hne v hv
    rw [normColumn, if_pos rfl] at hv
    by_cases hg : colMax src > colMin src
    · rw [if_pos hg] at hv
      obtain ⟨x, hx, rfl⟩ := List.mem_map.mp hv
      have h1 : colMin src ≤ x := colMin_le_mem src x hx
      have h2 : x ≤ colMax src := mem_le_colMax src x hx
      constructor
      · exact div_nonneg (by linarith) (by linarith)
      · rw [div_le_one (by linarith)]
        linarith
    · exfalso
      apply hne
      intro a ha b hb
      have hM := not_lt.mp hg
      have h1 : a ≤ colMin src := le_trans (mem_le_colMax src a ha) hM
      have h2 : b ≤ colMin src := le_trans (mem_le_colMax src b hb) hM
      have h3 : colMin src ≤ a := colMin_le_mem src a ha
      have h4 : colMin src ≤ b := colMin_le_mem src b hb
      linarith
  · intro heq
    rw [normColumn, if_pos rfl]
    cases src with
    | nil => simp [colMin, colMax]
    | cons x t =>
        have hall : ∀ y ∈ t, y = x := fun y hy =>
          heq y (by simp [hy]) x (by simp)
        have hmin : colMin (x :: t) = x := foldl_min_allEq t x hall
        have hmax : colMax (x :: t) = x := foldl_max_allEq t x hall
        rw [if_neg]
        rw [hmin, hmax]
        exact lt_irrefl x
  · intro hv
    rw [normColumn, if_neg (by decide), if_pos rfl, if_neg]
    rw [hv]
    exact lt_irrefl 0

/-- Witness for C9 at the concrete one-column frame `[("a", [1, 3])]`:
the column is not constant and the normalized cell `0` lies in `[0,1]`. -/
theorem c9_normalize_bounds_witness :
    (¬ allEqList [(1 : ℚ), 3]) ∧ (0 ≤ (0 : ℚ) ∧ (0 : ℚ) ≤ 1) :=
  have hne : ¬ allEqList [(1 : ℚ), 3] := by
    intro hcon
    have h13 := hcon 1 (by simp) 3 (by simp)
    norm_num at h13
  have hmem : (0 : ℚ) ∈ normColumn "minmax" [(1 : ℚ), 3] := by
    have hmin : colMin [(1 : ℚ), 3] = 1 := by
      rw [colMin]
      norm_num
    have hmax : colMax [(1 : ℚ), 3] = 3 := by
      rw [colMax]
      norm_num
    rw [normColumn, if_pos rfl, if_pos (by rw [hmin, hmax]; norm_num)]
    rw [hmin, hmax]
    norm_num
  ⟨hne,
   (c9_normalize_bounds [("a", [(1 : ℚ), 3])] "a" [(1 : ℚ), 3]
     (by simp)).2.1 hne 0 hmem⟩

theorem foldrAdd_isFin (l : List PVal) (h : ∀ v ∈ l, v.isFin) :
    (l.foldr (· + ·) (PVal.fin 0)).isFin := by
  induction l with
  | nil => exact ⟨0, rfl⟩
  | cons v t ih =>
      exact (h v (List.mem_cons_self v t)).add
        (ih fun u hu => h u (List.mem_cons_of_mem v hu))

theorem foldrAdd_isFinNonneg (l : List PVal) (h : ∀ v ∈ l, isFinNonneg v) :
    isFinNonneg (l.foldr (· + ·) (PVal.fin 0)) := by
  induction l with
  | nil => exact ⟨0, rfl, le_refl 0⟩
  | cons v t ih =>
      obtain ⟨a, ha, ha0⟩ := h v (List.mem_cons_self v t)
      obtain ⟨b, hb, hb0⟩ := ih fun u hu => h u (List.mem_cons_of_mem v hu)
      refine ⟨a + b, ?_, by linarith⟩
      rw [List.foldr_cons, ha, hb]
      rfl

theorem foldrAdd_isFinPos (l : List PVal) (h : ∀ v ∈ l, isFinNonneg v)
    (hex : ∃ v ∈ l, isFinPos v) : isFinPos (l.foldr (· + ·) (PVal.fin 0)) := by
  induction l with
  | nil => obtain ⟨v, hv, _⟩ := hex; cases hv
  | cons v t ih =>
      obtain ⟨a, ha, ha0⟩ := h v (List.mem_cons_self v t)
      obtain ⟨u, hu, hupos⟩ := hex
      rcases List.mem_cons.mp hu with rfl | hut
      · obtain ⟨b, hb, hb0⟩ :=
          foldrAdd_isFinNonneg t (fun w hw => h w (List.mem_cons_of_mem u hw))
        obtain ⟨a', ha', ha0'⟩ := hupos
        refine ⟨a' + b, ?_, by linarith⟩
        rw [List.foldr_cons, ha', hb]
        rfl
      · obtain ⟨b, hb, hb0⟩ := ih (fun w hw => h w (List.mem_cons_of_mem v hw))
          ⟨u, hut, hupos⟩
        refine ⟨a + b, ?_, by linarith⟩
        rw [List.foldr_cons, ha, hb]
        rfl

theorem windowSum_isFin (w : ℕ) (f : ℕ → PVal) (i : ℕ)
    (hf : ∀ j, i + 1 - w ≤ j → j ≤ i → (f j).isFin) (hw : w ≤ i + 1) :
    (windowSum w f i).isFin := by
  apply foldrAdd_isFin
  intro v hv
  obtain ⟨j, hj, rfl⟩ := List.mem_map.mp hv
  have hjw := List.mem_range.mp hj
  exact hf (i + 1 - w + j) (by omega) (by omega)

theorem windowSum_isFinNonneg (w : ℕ) (f : ℕ → PVal) (i : ℕ)
    (hf : ∀ j, i + 1 - w ≤ j → j ≤ i → isFinNonneg (f j)) (hw : w ≤ i + 1) :
    isFinNonneg (windowSum w f i) := by
  apply foldrAdd_isFinNonneg
  intro v hv
  obtain ⟨j, hj, rfl⟩ := List.mem_map.mp hv
  have hjw := List.mem_range.mp hj
  exact hf (i + 1 - w + j) (by omega) (by omega)

theorem windowSum_isFinPos (w : ℕ) (f : ℕ → PVal) (i : ℕ)
    (hf : ∀ j, i + 1 - w ≤ j → j ≤ i → isFinNonneg (f j)) (hw : w ≤ i + 1)
    (k : ℕ) (hk1 : i + 1 - w ≤ k) (hk2 : k ≤ i) (hkpos : isFinPos (f k)) :
    isFinPos (windowSum w f i) := by
  apply foldrAdd_isFinPos
  · intro v hv
    obtain ⟨j, hj, rfl⟩ := List.mem_map.mp hv
    have hjw := List.mem_range.mp hj
    exact hf (i + 1 - w + j) (by omega) (by omega)
  · refine ⟨f k, ?_, hkpos⟩
    apply List.mem_map.mpr
    refine ⟨k - (i + 1 - w), List.mem_range.mpr (by omega), ?_⟩
    congr 1
    omega

theorem rollMean_isFin (w : ℕ) (f : ℕ → PVal) (i : ℕ) (hw0 : w ≠ 0)
    (hw : w ≤ i + 1) (hf : ∀ j, i + 1 - w ≤ j → j ≤ i → (f j).isFin) :
    (rollMean w f i).isFin := by
  rw [rollMean, if_neg (by omega)]
  exact (windowSum_isFin w f i hf hw).div rfl
    (Nat.cast_ne_zero.mpr hw0)

theorem rollMean_isFinNonneg (w : ℕ) (f : ℕ → PVal) (i : ℕ) (hw0 : w ≠ 0)
    (hw : w ≤ i + 1) (hf : ∀ j, i + 1 - w ≤ j → j ≤ i → isFinNonneg (f j)) :
    isFinNonneg (rollMean w f i) := by
  rw [rollMean, if_neg (by omega)]
  obtain ⟨s, hs, hs0⟩ := windowSum_isFinNonneg w f i hf hw
  refine ⟨s / (w : ℚ), ?_, div_nonneg hs0 (Nat.cast_nonneg w)⟩
  rw [hs]
  exact PVal.div_fin_of_ne s (w : ℚ) (Nat.cast_ne_zero.mpr hw0)

theorem rollMean_isFinPos (w : ℕ) (f : ℕ → PVal) (i : ℕ) (hw0 : w ≠ 0)
    (hw : w ≤ i + 1) (hf : ∀ j, i + 1 - w ≤ j → j ≤ i → isFinNonneg (f j))
    (k : ℕ) (hk1 : i + 1 - w ≤ k) (hk2 : k ≤ i) (hkpos : isFinPos (f k)) :
    isFinPos (rollMean w f i) := by
  rw [rollMean, if_neg (by omega)]
  obtain ⟨s, hs, hs0⟩ := windowSum_isFinPos w f i hf hw k hk1 hk2 hkpos
  have hwpos : (0 : ℚ) < (w : ℚ) := by
    exact_mod_cast Nat.pos_of_ne_zero hw0
  refine ⟨s / (w : ℚ), ?_, div_pos hs0 hwpos⟩
  rw [hs]
  exact PVal.div_fin_of_ne s (w : ℚ) (ne_of_gt hwpos)

theorem rollStd_isFin (w : ℕ) (f : ℕ → PVal) (i : ℕ) (hw2 : 2 ≤ w)
    (hw : w ≤ i + 1) (hf : ∀ j, i + 1 - w ≤ j → j ≤ i → (f j).isFin) :
    (rollStd w f i).isFin := by
  rw [rollStd, if_neg (by omega)]
  obtain ⟨m, hm⟩ := windowSum_isFin w f i hf hw |>.div
    (b := .fin (w : ℚ)) rfl (Nat.cast_ne_zero.mpr (by omega))
  obtain ⟨s, hs, hs0⟩ := windowSum_isFinNonneg w
    (fun j => (f j - windowSum w f i / .fin (w : ℚ))
      * (f j - windowSum w f i / .fin (w : ℚ))) i
    (by
      intro j hj1 hj2
      obtain ⟨x, hx⟩ := hf j hj1 hj2
      refine ⟨(x - m) * (x - m), ?_, mul_self_nonneg (x - m)⟩
      show (f j - windowSum w f i / PVal.fin (w : ℚ))
          * (f j - windowSum w f i / PVal.fin (w : ℚ))
        = PVal.fin ((x - m) * (x - m))
      rw [hx, hm, PVal.sub_fin, PVal.mul_fin]) hw
  have hw1 : (0 : ℚ) < (w : ℚ) - 1 := by
    have : (2 : ℚ) ≤ (w : ℚ) := by exact_mod_cast hw2
    linarith
  rw [hs, PVal.div_fin_of_ne s ((w : ℚ) - 1) (ne_of_gt hw1)]
  rw [pvalSqrt, if_neg (not_lt.mpr (div_nonneg hs0 (le_of_lt hw1)))]
  exact ⟨_, rfl⟩

theorem ewm_isFin (s : ℕ) (f : ℕ → PVal) (i : ℕ)
    (hf : ∀ j ≤ i, (f j).isFin) : (ewm s f i).isFin := by
  induction i with
  | zero => exact hf 0 (le_refl 0)
  | succ k ih =>
      rw [ewm]
      exact ((PVal.isFin_fin _).mul
          (ih fun j hj => hf j (Nat.le_succ_of_le hj))).add
        ((PVal.isFin_fin _).mul (hf (k + 1) (le_refl _)))

theorem pctChange_isFin (p : ℕ) (f : ℕ → PVal) (i : ℕ) (hpi : p ≤ i)
    (hfi : (f i).isFin) {q : ℚ} (hfp : f (i - p) = .fin q) (hq : q ≠ 0) :
    (pctChange p f i).isFin := by
  simp only [pctChange, if_neg (not_lt.mpr hpi)]
  exact (hfi.sub ⟨q, hfp⟩).div hfp hq

theorem colDiff_zero (f : ℕ → PVal) : colDiff f 0 = .nan := by
  simp [colDiff]

theorem colDiff_succ (f : ℕ → PVal) (k : ℕ) {x y : ℚ}
    (hx : f (k + 1) = .fin x) (hy : f k = .fin y) :
    colDiff f (k + 1) = .fin (x - y) := by
  simp only [colDiff, if_neg (Nat.succ_ne_zero k), Nat.add_sub_cancel,
    hx, hy, PVal.sub_fin]

theorem gainCol_isFinNonneg (f : ℕ → PVal) (i : ℕ)
    (hf : ∀ j ≤ i, (f j).isFin) : ∀ j ≤ i, isFinNonneg (gainCol f j) := by
  intro j hj
  simp only [gainCol]
  cases j with
  | zero =>
      rw [colDiff_zero]
      exact ⟨0, rfl, le_refl 0⟩
  | succ k =>
      obtain ⟨x, hx⟩ := hf (k + 1) hj
      obtain ⟨y, hy⟩ := hf k (by omega)
      rw [colDiff_succ f k hx hy]
      by_cases hpos : 0 < x - y
      · rw [if_pos (by simp [PVal.gtZ, hpos])]
        exact ⟨x - y, rfl, le_of_lt hpos⟩
      · rw [if_neg (by simp [PVal.gtZ]; linarith [not_lt.mp hpos])]
        exact ⟨0, rfl, le_refl 0⟩

theorem lossCol_isFinNonneg (f : ℕ → PVal) (i : ℕ)
    (hf : ∀ j ≤ i, (f j).isFin) : ∀ j ≤ i, isFinNonneg (lossCol f j) := by
  intro j hj
  simp only [lossCol]
  cases j with
  | zero =>
      rw [colDiff_zero]
      exact ⟨-0, rfl, by norm_num⟩
  | succ k =>
      obtain ⟨x, hx⟩ := hf (k + 1) hj
      obtain ⟨y, hy⟩ := hf k (by omega)
      rw [colDiff_succ f k hx hy]
      by_cases hneg : x - y < 0
      · rw [if_pos (by simp [PVal.ltZ, hneg])]
        exact ⟨-(x - y), rfl, by linarith⟩
      · rw [if_neg (by simp [PVal.ltZ]; linarith [not_lt.mp hneg])]
        exact ⟨-0, rfl, by norm_num⟩

theorem lossCol_isFinPos (f : ℕ → PVal) (j : ℕ) (hj : j ≠ 0) {x y : ℚ}
    (hprev : f (j - 1) = .fin x) (hcur : f j = .fin y) (hlt : y < x) :
    isFinPos (lossCol f j) := by
  have hd : colDiff f j = .fin (y - x) := by
    simp only [colDiff, if_neg hj, hcur, hprev, PVal.sub_fin]
  simp only [lossCol]
  rw [hd, if_pos (by simp [PVal.ltZ]; linarith)]
  exact ⟨-(y - x), rfl, by linarith⟩

/-- A row survives `dropna` once every window it depends on has history and
the data is benign: finite prices/volumes, non-zero values at the pct-change
look-backs, and at least one price drop inside the RSI window (so that the
average loss is a positive finite number and the RSI division is defined). -/
theorem rowOk_of_goodData (df : PriceDF) (i : ℕ) (hi : 1440 ≤ i)
    (hfin : ∀ j ≤ i, (df.price j).isFin ∧ (df.volume j).isFin)
    (hpc24 : ∃ q, df.price (i - 1440) = .fin q ∧ q ≠ 0)
    (hpc1 : ∃ q, df.price (i - 60) = .fin q ∧ q ≠ 0)
    (hvc24 : ∃ q, df.volume (i - 1440) = .fin q ∧ q ≠ 0)
    (hvc1 : ∃ q, df.volume (i - 60) = .fin q ∧ q ≠ 0)
    (hlossw : ∃ k, i + 1 - 14 ≤ k ∧ k ≤ i ∧ isFinPos (lossCol df.price k)) :
    rowOk (priceFeatureCols df) i = true := by
  obtain ⟨p24, hp24, hp24n⟩ := hpc24
  obtain ⟨p1, hp1, hp1n⟩ := hpc1
  obtain ⟨v24, hv24, hv24n⟩ := hvc24
  obtain ⟨v1, hv1, hv1n⟩ := hvc1
  obtain ⟨k, hk1, hk2, hloss⟩ := hlossw
  have hpfin : ∀ j ≤ i, (df.price j).isFin := fun j hj => (hfin j hj).1
  have hvfin : ∀ j ≤ i, (df.volume j).isFin := fun j hj => (hfin j hj).2
  have h1 : (df.price i).isFin := hpfin i (le_refl i)
  have h2 : (df.volume i).isFin := hvfin i (le_refl i)
  have hpc1 := pctChange_isFin 60 df.price i (by omega) h1 hp1 hp1n
  have hpc24 := pctChange_isFin 1440 df.price i (by omega) h1 hp24 hp24n
  have hvc1 := pctChange_isFin 60 df.volume i (by omega) h2 hv1 hv1n
  have hvc24 := pctChange_isFin 1440 df.volume i (by omega) h2 hv24 hv24n
  have hma5 := rollMean_isFin 5 df.price i (by norm_num) (by omega)
    (fun j _ hj => hpfin j hj)
  have hma20 := rollMean_isFin 20 df.price i (by norm_num) (by omega)
    (fun j _ hj => hpfin j hj)
  have hma50 := rollMean_isFin 50 df.price i (by norm_num) (by omega)
    (fun j _ hj => hpfin j hj)
  have hma200 := rollMean_isFin 200 df.price i (by norm_num) (by omega)
    (fun j _ hj => hpfin j hj)
  have hstd := rollStd_isFin 20 df.price i (by norm_num) (by omega)
    (fun j _ hj => hpfin j hj)
  have hupper : (rollMean 20 df.price i + rollStd 20 df.price i * PVal.fin 2).isFin :=
    hma20.add (hstd.mul (PVal.isFin_fin 2))
  have hlower : (rollMean 20 df.price i - rollStd 20 df.price i * PVal.fin 2).isFin :=
    hma20.sub (hstd.mul (PVal.isFin_fin 2))
  obtain ⟨g, hg, hg0⟩ := rollMean_isFinNonneg 14 (gainCol df.price) i
    (by norm_num) (by omega)
    (fun j _ hj => gainCol_isFinNonneg df.price i hpfin j hj)
  obtain ⟨l, hl, hl0⟩ := rollMean_isFinPos 14 (lossCol df.price) i
    (by norm_num) (by omega)
    (fun j _ hj => lossCol_isFinNonneg df.price i hpfin j hj) k hk1 hk2 hloss
  have hrsi : (PVal.fin 100 - PVal.fin 100 /
      (PVal.fin 1 + rollMean 14 (gainCol df.price) i
        / rollMean 14 (lossCol df.price) i)).isFin := by
    rw [hg, hl, PVal.div_fin_of_ne g l (ne_of_gt hl0)]
    have hq0 : (0 : ℚ) ≤ g / l := div_nonneg hg0 (le_of_lt hl0)
    have hpos : (0 : ℚ) < 1 + g / l := by linarith
    rw [show PVal.fin 1 + PVal.fin (g / l) = PVal.fin (1 + g / l) from rfl]
    rw [PVal.div_fin_of_ne 100 _ (ne_of_gt hpos)]
    exact ⟨100 - 100 / (1 + g / l), PVal.sub_fin _ _⟩
  have hema12 := ewm_isFin 12 df.price i hpfin
  have hema26 := ewm_isFin 26 df.price i hpfin
  have hmacd : ∀ j ≤ i, (ewm 12 df.price j - ewm 26 df.price j).isFin :=
    fun j hj =>
      (ewm_isFin 12 df.price j (fun u hu => hpfin u (le_trans hu hj))).sub
        (ewm_isFin 26 df.price j (fun u hu => hpfin u (le_trans hu hj)))
  have hsig := ewm_isFin 9 (fun j => ewm 12 df.price j - ewm 26 df.price j) i
    hmacd
  have hhist := (hmacd i (le_refl i)).sub hsig
  simp only [rowOk, priceFeatureCols, List.all_cons, List.all_nil,
    Bool.and_eq_true, Bool.and_true]
  refine ⟨?_, ?_, ?_, ?_, ?_, ?_, ?_, ?_, ?_, ?_, ?_, ?_, ?_, ?_, ?_, ?_,
    ?_, ?_, ?_⟩
  · simp [h1.not_isNan]
  · simp [h2.not_isNan]
  · simp [hpc1.not_isNan]
  · simp [hpc24.not_isNan]
  · simp [hvc1.not_isNan]
  · simp [hvc24.not_isNan]
  · simp [hma5.not_isNan]
  · simp [hma20.not_isNan]
  · simp [hma50.not_isNan]
  · simp [hma200.not_isNan]
  · simp [hstd.not_isNan]
  · simp [hupper.not_isNan]
  · simp [hlower.not_isNan]
  · simp [hrsi.not_isNan]
  · simp [hema12.not_isNan]
  · simp [hema26.not_isNan]
  · simp [(hmacd i (le_refl i)).not_isNan]
  · simp [hsig.not_isNan]
  · simp [hhist.not_isNan]

/-- Any frame shorter than 1441 rows yields an empty feature table: the
24h-change column (look-back 1440) is NaN on every row, so `dropna` drops
them all. -/
theorem extract_empty_of_short (df : PriceDF) (h : df.n ≤ 1440) :
    extract_price_features df = [] := by
  rw [extract_price_features]
  have hfilter :
      (List.range df.n).filter (rowOk (priceFeatureCols df)) = [] := by
    rw [List.filter_eq_nil_iff]
    intro i hi
    have hilt : i < 1440 := lt_of_lt_of_le (List.mem_range.mp hi) h
    rw [rowOk]
    intro hall
    rw [List.all_eq_true] at hall
    have hc := hall ("price_change_24h", pctChange 1440 df.price)
      (by simp [priceFeatureCols])
    simp only [pctChange, if_pos hilt] at hc
    simp at hc
  rw [hfilter]
  rfl

theorem keepLR_length_le (l : List PriceObs) :
    (keepLastRun l).length ≤ l.length := by
  induction l with
  | nil => simp [keepLastRun]
  | cons a t ih =>
      cases t with
      | nil => simp [keepLastRun]
      | cons b rest =>
          show (if a.ts = b.ts then keepLastRun (b :: rest)
              else a :: keepLastRun (b :: rest)).length ≤ (a :: b :: rest).length
          split
          · exact le_trans ih (Nat.le_succ _)
          · simp only [List.length_cons]
            exact Nat.succ_le_succ ih

theorem keepLR_length_lt (l₁ : List PriceObs) (a b : PriceObs)
    (l₂ : List PriceObs) (hab : a.ts = b.ts) :
    (keepLastRun (l₁ ++ a :: b :: l₂)).length < (l₁ ++ a :: b :: l₂).length := by
  induction l₁ with
  | nil =>
      simp only [List.nil_append]
      show (if a.ts = b.ts then keepLastRun (b :: l₂)
          else a :: keepLastRun (b :: l₂)).length < (a :: b :: l₂).length
      rw [if_pos hab]
      exact Nat.lt_succ_of_le (keepLR_length_le (b :: l₂))
  | cons x t ih =>
      obtain ⟨y, rest, hyr⟩ : ∃ y rest, t ++ a :: b :: l₂ = y :: rest := by
        cases t with
        | nil => exact ⟨a, b :: l₂, rfl⟩
        | cons z t2 => exact ⟨z, t2 ++ a :: b :: l₂, rfl⟩
      have ih' := ih
      rw [hyr] at ih'
      simp only [List.cons_append, hyr]
      show (if x.ts = y.ts then keepLastRun (y :: rest)
          else x :: keepLastRun (y :: rest)).length < (x :: y :: rest).length
      split
      · exact Nat.lt_trans ih' (Nat.lt_succ_self _)
      · simp only [List.length_cons]
        exact Nat.succ_lt_succ ih'

theorem cexObs_length : cexObs.length = 1441 := by
  simp [cexObs]

theorem cexObs_get (i : ℕ) (h : i < 1441) :
    cexObs.get? i = some ⟨min i 1439, cexPrice i, 1⟩ := by
  have hlen : ((List.range 1439).map
      (fun i => (⟨i, cexPrice i, 1⟩ : PriceObs))).length = 1439 := by
    simp
  rcases lt_or_ge i 1439 with hlt | hge
  · rw [cexObs, List.get?_append (by rw [hlen]; exact hlt)]
    rw [List.get?_map, List.get?_range hlt]
    simp [min_eq_left (le_of_lt hlt)]
  · have : i = 1439 ∨ i = 1440 := by omega
    rcases this with rfl | rfl
    · rw [cexObs, List.get?_append_right (by rw [hlen])]
      rw [hlen]
      norm_num
    · rw [cexObs, List.get?_append_right (by rw [hlen]; omega)]
      rw [hlen]
      norm_num

theorem cexObs_sorted : cexObs.Sorted obsLe := by
  rw [cexObs, List.Sorted, List.pairwise_append]
  refine ⟨?_, ?_, ?_⟩
  · rw [List.pairwise_map]
    exact (List.pairwise_lt_range 1439).imp (fun h => le_of_lt h)
  · simp [obsLe]
  · intro p hp q hq
    obtain ⟨j, hj, rfl⟩ := List.mem_map.mp hp
    have hjlt := List.mem_range.mp hj
    have : q.ts = 1439 := by
      rcases List.mem_cons.mp hq with rfl | hq2
      · rfl
      · rcases List.mem_cons.mp hq2 with rfl | hq3
        · rfl
        · cases hq3
    rw [obsLe, this]
    show j ≤ 1439
    omega

theorem cex_sort_eq : cexObs.insertionSort obsLe = cexObs :=
  List.Sorted.insertionSort_eq cexObs_sorted

theorem cexF_n : (process_price_data cexObs).n = 1441 := by
  dsimp only [process_price_data, frameOfSorted]
  rw [cex_sort_eq, cexObs_length]

theorem cexF_price (i : ℕ) (h : i < 1441) :
    (process_price_data cexObs).price i = .fin (cexPrice i) := by
  dsimp only [process_price_data, frameOfSorted]
  rw [cex_sort_eq, cexObs_get i h]

theorem cexF_volume (i : ℕ) (h : i < 1441) :
    (process_price_data cexObs).volume i = .fin 1 := by
  dsimp only [process_price_data, frameOfSorted]
  rw [cex_sort_eq, cexObs_get i h]

theorem cexPrice_ne_zero (i : ℕ) : cexPrice i ≠ 0 := by
  rw [cexPrice]
  split
  · norm_num
  · have : (0 : ℚ) ≤ (i : ℚ) := Nat.cast_nonneg i
    intro hcon
    linarith

theorem cex_rowOk :
    rowOk (priceFeatureCols (process_price_data cexObs)) 1440 = true := by
  apply rowOk_of_goodData (process_price_data cexObs) 1440 (le_refl 1440)
  · intro j hj
    exact ⟨by rw [cexF_price j (by omega)]; exact ⟨_, rfl⟩,
      by rw [cexF_volume j (by omega)]; exact ⟨_, rfl⟩⟩
  · simp only [show (1440 - 1440 : ℕ) = 0 from rfl]
    exact ⟨cexPrice 0, cexF_price 0 (by norm_num), cexPrice_ne_zero 0⟩
  · simp only [show (1440 - 60 : ℕ) = 1380 from rfl]
    exact ⟨cexPrice 1380, cexF_price 1380 (by norm_num), cexPrice_ne_zero 1380⟩
  · simp only [show (1440 - 1440 : ℕ) = 0 from rfl]
    exact ⟨1, cexF_volume 0 (by norm_num), by norm_num⟩
  · simp only [show (1440 - 60 : ℕ) = 1380 from rfl]
    exact ⟨1, cexF_volume 1380 (by norm_num), by norm_num⟩
  · refine ⟨1435, by norm_num, by norm_num, ?_⟩
    have hprev : (process_price_data cexObs).price (1435 - 1)
        = PVal.fin (cexPrice 1434) := by
      simp only [show (1435 - 1 : ℕ) = 1434 from rfl]
      exact cexF_price 1434 (by norm_num)
    apply lossCol_isFinPos (process_price_data cexObs).price 1435 (by norm_num)
      hprev (cexF_price 1435 (by norm_num))
    rw [cexPrice, cexPrice]
    norm_num

theorem cex_pipeline_ne_nil : pricePipeline cexObs ≠ [] := by
  have hm : (1440 : ℕ) ∈ (List.range (process_price_data cexObs).n).filter
      (rowOk (priceFeatureCols (process_price_data cexObs))) := by
    rw [List.mem_filter, List.mem_range, cexF_n]
    exact ⟨by norm_num, cex_rowOk⟩
  exact List.ne_nil_of_mem (List.mem_map_of_mem _ hm)

theorem cex_dedup_pipeline_nil :
    pricePipeline (dedupSortSpec cexObs) = [] := by
  apply extract_empty_of_short
  dsimp only [process_price_data, frameOfSorted]
  rw [List.length_insertionSort, dedupSortSpec, cex_sort_eq]
  have hlt := keepLR_length_lt
    ((List.range 1439).map (fun i => (⟨i, cexPrice i, 1⟩ : PriceObs)))
    ⟨1439, cexPrice 1439, 1⟩ ⟨1439, cexPrice 1440, 1⟩ [] rfl
  rw [show ((List.range 1439).map (fun i => (⟨i, cexPrice i, 1⟩ : PriceObs)))
      ++ ⟨1439, cexPrice 1439, 1⟩ :: ⟨1439, cexPrice 1440, 1⟩ :: ([] : List PriceObs)
      = cexObs from rfl] at hlt
  rw [cexObs_length] at hlt
  omega

/-- Two sorted lists of observations that are permutations of each other and
have pairwise-distinct timestamps are equal. -/
theorem sorted_perm_nodupkeys_eq :
    ∀ (l₁ l₂ : List PriceObs), l₁.Perm l₂ → l₁.Sorted obsLe → l₂.Sorted obsLe →
      (l₁.map PriceObs.ts).Nodup → l₁ = l₂ := by
  intro l₁
  induction l₁ with
  | nil =>
      intro l₂ hp _ _ _
      exact (hp.nil_eq).symm.symm ▸ hp.nil_eq
  | cons a t₁ ih =>
      intro l₂ hp hs₁ hs₂ hnd
      cases l₂ with
      | nil => exact absurd hp.eq_nil (by simp)
      | cons b t₂ =>
          have hab : a = b := by
            have hbmem : b ∈ a :: t₁ := hp.mem_iff.mpr (List.mem_cons_self b t₂)
            have hamem : a ∈ b :: t₂ := hp.mem_iff.mp (List.mem_cons_self a t₁)
            rcases List.mem_cons.mp hbmem with heq | hbt
            · exact heq.symm
            · rcases List.mem_cons.mp hamem with heq | hat
              · exact heq
              · exfalso
                have h1 : a.ts ≤ b.ts :=
                  List.rel_of_sorted_cons hs₁ b hbt
                have h2 : b.ts ≤ a.ts :=
                  List.rel_of_sorted_cons hs₂ a hat
                have hts : a.ts = b.ts := Nat.le_antisymm h1 h2
                have hhead : a.ts ∉ t₁.map PriceObs.ts :=
                  (List.nodup_cons.mp (by simpa using hnd)).1
                exact hhead (hts ▸ List.mem_map_of_mem PriceObs.ts hbt)
          subst hab
          have htail : t₁ = t₂ :=
            ih t₂ hp.cons_inv (List.Sorted.of_cons hs₁)
              (List.Sorted.of_cons hs₂)
              (List.nodup_cons.mp (by simpa using hnd)).2
          rw [htail]

/-- **C5, counterexample**: the claim says `extract_price_features` output on
any raw sequence equals its output on the de-duplicated (keep-last),
time-sorted version. On 1441 already-sorted minute observations whose last
two share a timestamp, the pipeline emits one row (the 1441-row history
fills every window at the last position), while on the de-duplicated version
(1440 rows) every row still lacks 24h-change history and the output is
empty: the outputs differ, because the code sorts but never de-duplicates. -/
theorem c5_counterexample :
    ¬ (pricePipeline cexObs = pricePipeline (dedupSortSpec cexObs)) := by
  intro h
  rw [cex_dedup_pipeline_nil] at h
  exact cex_pipeline_ne_nil h

/-- **C5 (amended)**: the output of `extract_price_features` over
`process_price_data` is invariant under permutation of the input
observations as long as their timestamps are pairwise distinct (the code
sorts by timestamp before computing); duplicate timestamps are *not*
removed, and with duplicates present the output can differ from the
de-duplicated version's (see the counterexample). -/
theorem c5_perm_invariance (l₁ l₂ : List PriceObs) (hp : l₁.Perm l₂)
    (hnd : (l₁.map PriceObs.ts).Nodup) :
    pricePipeline l₁ = pricePipeline l₂ := by
  have hs : l₁.insertionSort obsLe = l₂.insertionSort obsLe := by
    apply sorted_perm_nodupkeys_eq
    · exact (List.perm_insertionSort obsLe l₁).trans
        (hp.trans (List.perm_insertionSort obsLe l₂).symm)
    · exact List.sorted_insertionSort obsLe l₁
    · exact List.sorted_insertionSort obsLe l₂
    · exact (((List.perm_insertionSort obsLe l₁).map PriceObs.ts).nodup_iff).mpr
        hnd
  show extract_price_features (frameOfSorted (l₁.insertionSort obsLe))
    = extract_price_features (frameOfSorted (l₂.insertionSort obsLe))
  rw [hs]

/-- Witness for the amended C5 at a concrete two-element permutation with
distinct timestamps. -/
theorem c5_perm_invariance_witness :
    pricePipeline [cexW2, cexW1] = pricePipeline [cexW1, cexW2] :=
  c5_perm_invariance [cexW2, cexW1] [cexW1, cexW2]
    (List.Perm.swap cexW1 cexW2 [])
    (by simp [cexW1, cexW2])

/-- **C8**: every row emitted by `extract_price_features` and by
`create_lagged_features` has all its cells non-null: rows with insufficient
rolling/lag history are dropped entirely by the `dropna` passes (lines 149
and 319), never emitted partially filled. -/
theorem c8_no_partial_rows :
    (∀ df : PriceDF, (extract_price_features df).all
        (fun r => r.vals.all (fun v => !v.isNan)) = true) ∧
    (∀ (df : Frame) (lags : List ℕ) (cs : Option (List String))
        (out : List FeatRow), create_lagged_features df lags cs = .ok out →
        out.all (fun r => r.vals.all (fun v => !v.isNan)) = true) := by
  constructor
  · intro df
    rw [List.all_eq_true]
    intro r hr
    rw [extract_price_features] at hr
    obtain ⟨i, hi, rfl⟩ := List.mem_map.mp hr
    have hok := (List.mem_filter.mp hi).2
    rw [rowOk] at hok
    rw [List.all_eq_true]
    intro v hv
    obtain ⟨c, hc, rfl⟩ := List.mem_map.mp hv
    exact List.all_eq_true.mp hok c hc
  · intro df lags cs out hout
    simp only [create_lagged_features] at hout
    by_cases hn : df.n = 0
    · rw [if_pos hn] at hout
      injection hout with h
      subst h
      rfl
    · rw [if_neg hn] at hout
      split at hout
      · injection hout with h
        subst h
        rw [List.all_eq_true]
        intro r hr
        obtain ⟨i, hi, rfl⟩ := List.mem_map.mp hr
        have hok := (List.mem_filter.mp hi).2
        rw [rowOk] at hok
        rw [List.all_eq_true]
        intro v hv
        obtain ⟨c, hc, rfl⟩ := List.mem_map.mp hv
        exact List.all_eq_true.mp hok c hc
      · exact absurd hout (by simp)

/-- Witness for C8 at a concrete lagged frame: the one surviving row is
fully non-null. -/
theorem c8_no_partial_rows_witness :
    create_lagged_features lagProbeFrame [1] none
        = .ok [⟨1, [.fin 1, .fin 1]⟩] ∧
    ([⟨1, [.fin 1, .fin 1]⟩] : List FeatRow).all
        (fun r => r.vals.all (fun v => !v.isNan)) = true :=
  ⟨rfl, c8_no_partial_rows.2 lagProbeFrame [1] none [⟨1, [.fin 1, .fin 1]⟩] rfl⟩

/-- **C10**: `extract_news_knowledge` emits items only for columns named
`sentiment_score` and `importance_score`, which the news feature table
(columns `news_count`, `avg_sentiment`, `weighted_sentiment`,
`positive_ratio`, `negative_ratio`, `importance_avg`) never contains, so for
every feature table produced by `extract_news_sentiment_features` it persists
zero knowledge items. -/
theorem c10_news_knowledge_empty (symbol : String) (df : List NewsItem) :
    extract_news_knowledge symbol (extract_news_sentiment_features df).2
      = .ok [] := by
  have h1 : ¬ "sentiment_score" ∈ newsFeatureColumnNames := by decide
  have h2 : ¬ "importance_score" ∈ newsFeatureColumnNames := by decide
  rw [extract_news_knowledge]
  split
  · rfl
  · simp [h1, h2]

end CoinKB

